import Mathlib

/-!
Verification of the reporting pipeline of `rust-metrics`
(`src/reporter/prometheus.rs` and `src/reporter/console.rs`).

Shallow embedding conventions:
* The external metric collaborator (`metrics::Metric`) is modelled at its
  interface boundary: four variants, of which Counter and Gauge expose an
  integer snapshot value.  The source casts that value to `f64` with `as f64`
  before storing it in the wire payload; the embedding keeps the integer
  (the cast is value-preserving on every value any claim mentions).
* `HashMap<String, String>` label sets and the
  `HashMap<&'static str, Vec<PrometheusMetricEntry>>` grouping map are
  modelled as association lists.  The iteration order of a Rust `HashMap`
  is arbitrary; the embedding fixes one concrete order (first-insertion
  order for the grouping map, the given list order for labels).  No claim
  depends on cross-key iteration order.
* `time::now().to_timespec().sec` is an ambient wall-clock reading taken
  once per `make_metric` call.  The embedding threads an explicit clock
  `Nat → Int` indexed by the running count of `make_metric` calls, so each
  call receives its own fresh reading.
* The mpsc channel is modelled by its buffered contents plus a closed flag
  (`closed` = every `Sender` has been dropped).  Blocking is modelled by
  `Option`: a function returns `none` where the Rust code would block
  without returning.
-/

namespace RustMetrics

/-- A `promo_proto::LabelPair` (fields `name`/`value`). -/
structure LabelPair where
  name : String
  value : String
deriving DecidableEq, Repr

/-- A label set (`HashMap<String, String>` in the source), as an association
list.  Keys are unique by the map abstraction; order carries no meaning. -/
abbrev LabelSet := List (String × String)

/-- `to_repeated_fields_labels`: clone the label map into a repeated field of
`LabelPair`s, one pair per map entry, in iteration order. -/
def to_repeated_fields_labels (labels : LabelSet) : List LabelPair :=
  labels.map (fun p => { name := p.1, value := p.2 })

/-- `metrics::Metric`, the external metric collaborator, at its interface
boundary: a closed sum of four variants whose only operation is producing a
snapshot.  Counter and Gauge snapshots carry the numeric value the reporter
reads (`x.snapshot().value`); Meter and Histogram snapshots are never read
by the Prometheus reporter, so no field of theirs is modelled. -/
inductive Metric where
  | counter (snapshotValue : Int)
  | gauge (snapshotValue : Int)
  | meter
  | histogram
deriving DecidableEq, Repr

/-- `promo_proto::MetricType`. -/
inductive MetricType where
  | COUNTER
  | GAUGE
  | SUMMARY
  | HISTOGRAM
deriving DecidableEq, Repr

/-- `promo_proto::Metric`: the per-member wire record.  The payload oneof is
modelled as four optional fields; `set_counter` fills `counter` (with the
snapshot value, cast `as f64` in the source), `set_gauge` fills `gauge`,
`set_summary`/`set_histogram` fill the corresponding field with the empty
payload `()` (the source stores `Summary::new()` / `Histogram::new()`,
fresh empty messages). -/
structure PbMetric where
  label : List LabelPair
  timestamp_ms : Int
  counter : Option Int := none
  gauge : Option Int := none
  summary : Option Unit := none
  histogram : Option Unit := none
deriving DecidableEq, Repr

/-- `promo_proto::MetricFamily` (fields set by `set_name`, `set_field_type`,
`set_metric`). -/
structure MetricFamily where
  name : String
  field_type : MetricType
  metric : List PbMetric
deriving DecidableEq, Repr

/-- `PrometheusMetricEntry`: one submission travelling over the channel. -/
structure PrometheusMetricEntry where
  name : String
  metric : Metric
  labels : LabelSet
deriving DecidableEq, Repr

/-- `make_metric`, with the ambient wall-clock reading
`time::now().to_timespec().sec` passed in as `ts`.  Builds the wire record
(timestamp, cloned labels, variant payload) and returns it with the wire
type of the variant. -/
def make_metric (ts : Int) (metric : Metric) (labels : LabelSet) :
    PbMetric × MetricType :=
  let pb_metric : PbMetric := { label := to_repeated_fields_labels labels, timestamp_ms := ts }
  match metric with
  | .counter v => ({ pb_metric with counter := some v }, .COUNTER)
  | .gauge v => ({ pb_metric with gauge := some v }, .GAUGE)
  | .meter => ({ pb_metric with summary := some () }, .SUMMARY)
  | .histogram => ({ pb_metric with histogram := some () }, .HISTOGRAM)

/-- The grouping map `HashMap<&'static str, Vec<PrometheusMetricEntry>>`
as an association list with unique keys. -/
abbrev EntriesGroup := List (String × List PrometheusMetricEntry)

/-- Association-list lookup for the grouping map (`HashMap` key lookup). -/
def lookupGroup : EntriesGroup → String → Option (List PrometheusMetricEntry)
  | [], _ => none
  | (k, b) :: rest, n => if k = n then some b else lookupGroup rest n

/-- One step of the grouping loop body:
`entries_group.remove(name).unwrap_or(vec![])`, `entries.push(entry)`,
`entries_group.insert(name, entries)`.  On the association list this appends
the entry to the bucket of its name, creating the bucket if absent (a new
key goes to the end; an existing key keeps its position — the `HashMap`
iteration order over keys is arbitrary, so any one position is a faithful
choice). -/
def insertGrouped : EntriesGroup → PrometheusMetricEntry → EntriesGroup
  | [], e => [(e.name, [e])]
  | (k, b) :: rest, e =>
      if k = e.name then (k, b ++ [e]) :: rest
      else (k, b) :: insertGrouped rest e

/-- The drain-and-group loop of `collect_to_send` applied to the list of
entries the iteration yielded: `for entry in metric_entries { … }` groups
the entries by name, preserving per-name submission order. -/
def groupByName (entries : List PrometheusMetricEntry) : EntriesGroup :=
  entries.foldl insertGrouped []

/-- `format!("{}_{}_{}", "application_name", name, "bytes")`. -/
def formatMetricName (name : String) : String :=
  "application_name" ++ "_" ++ name ++ "_" ++ "bytes"

/-- The inner `for metric_entry in metric_entries` loop of
`collect_to_send`: convert every entry of a bucket with `make_metric`,
keeping the wire record and discarding the type.  `i` is the running count
of `make_metric` calls, so entry `j` of the bucket is converted at call
index `i + j` with the fresh clock reading `clock (i + j)`. -/
def convertBucket (clock : Nat → Int) : Nat → List PrometheusMetricEntry → List PbMetric
  | _, [] => []
  | i, e :: rest =>
      (make_metric (clock i) e.metric e.labels).1 :: convertBucket clock (i + 1) rest

/-- The per-bucket family construction of `collect_to_send`: format the
name, probe `metric_entries[0]` with one `make_metric` call (at call index
`i`) keeping only the wire type, then convert the whole bucket (call
indices `i + 1` onwards).  The empty-bucket branch is unreachable from
`groupByName` (the source would panic on `metric_entries[0]`); it returns
the family of an impossible bucket and is excluded by hypothesis wherever
it matters. -/
def famOfBucket (clock : Nat → Int) (i : Nat) (name : String)
    (bucket : List PrometheusMetricEntry) : MetricFamily :=
  { name := formatMetricName name
  , field_type :=
      match bucket with
      | [] => .COUNTER
      | e1 :: _ => (make_metric (clock i) e1.metric e1.labels).2
  , metric := convertBucket clock (i + 1) bucket }

/-- The outer `for (name, metric_entries) in &entries_group` loop of
`collect_to_send`: build one family per bucket, threading the running
`make_metric` call count (each bucket of size `k` uses `1 + k` calls: one
type probe plus one conversion per member).  An empty bucket never arises
from `groupByName`; the source would panic there, the model skips it. -/
def buildFamilies (clock : Nat → Int) : Nat → EntriesGroup → List MetricFamily
  | _, [] => []
  | i, (name, bucket) :: rest =>
      match bucket with
      | [] => buildFamilies clock i rest
      | _ :: _ =>
          famOfBucket clock i name bucket ::
            buildFamilies clock (i + 1 + bucket.length) rest

/-- The pure part of `collect_to_send`: group the drained entries by name
and build one `MetricFamily` per bucket. -/
def groupAndBuild (clock : Nat → Int) (entries : List PrometheusMetricEntry) :
    List MetricFamily :=
  buildFamilies clock 0 (groupByName entries)

/-- The drain loop of `collect_to_send`: `for entry in metric_entries` over
`&mpsc::Receiver` uses the blocking iterator, whose `next` is `recv()`: it
yields each buffered entry in order and, once the buffer is empty, blocks
until another entry arrives or every sender is dropped; the iteration ends
only when the channel is closed.  `some entries` means the loop terminates
having consumed `entries`; `none` means the loop blocks (does not return
in this cycle). -/
def drainByIteration (pending : List PrometheusMetricEntry) (closed : Bool) :
    Option (List PrometheusMetricEntry) :=
  if closed then some pending else none

/-- Modelled from the spec: the drain step the specification prescribes
(the `collect_to_send` drain is required to take exactly the entries
immediately available in the channel and return, whether or not the channel
is closed).  This definition follows the spec wording, for comparison with
`drainByIteration`, which follows the source. -/
def drainSpecified (pending : List PrometheusMetricEntry) (closed : Bool) :
    List PrometheusMetricEntry :=
  pending

/-- `collect_to_send` on a channel state: drain (blocking as the source
does), then group and build.  `none` models the call not returning during
the cycle. -/
def collect_to_send (clock : Nat → Int) (pending : List PrometheusMetricEntry)
    (closed : Bool) : Option (List MetricFamily) :=
  (drainByIteration pending closed).map (groupAndBuild clock)

/-- One iteration of the export-loop body spawned by
`PrometheusReporter::start`:
`prometheus_reporter.add(collect_to_send(&rx))` followed by
`thread::sleep`.  The hand-off to the external push sink is unconditional
— whatever list `collect_to_send` returns, even the empty one, is passed
to the sink that cycle.  The sink is modelled by the trace of hand-off
calls it has received. -/
def exportCycle (clock : Nat → Int) (drained : List PrometheusMetricEntry)
    (sinkTrace : List (List MetricFamily)) : List (List MetricFamily) :=
  sinkTrace ++ [groupAndBuild clock drained]

/-- The state of the mpsc channel created by `start`: the buffered entries
and whether the receiving side is still alive (mpsc `send` fails exactly
when the `Receiver` has been dropped). -/
structure ChannelState where
  pending : List PrometheusMetricEntry
  receiverAlive : Bool
deriving DecidableEq, Repr

/-- The error outcomes of `PrometheusReporter::add`.  `NotStarted` is the
source's `Err("Please start the reporter before trying to add to it")`;
`ChannelClosed` is the source's `Err(format!("Unable to send {}", y))`
wrapping the mpsc `SendError`. -/
inductive AddError where
  | NotStarted
  | ChannelClosed
deriving DecidableEq, Repr

/-- `PrometheusReporter` — `reporter_name` and `host_and_port` fixed at
construction, `tx` the optional sender side of the channel.  The channel
state is carried inline with the sender so that the functional model can
talk about enqueued entries. -/
structure PrometheusReporter where
  reporter_name : String
  host_and_port : String
  tx : Option ChannelState
deriving DecidableEq, Repr

/-- `PrometheusReporter::new`. -/
def PrometheusReporter.new (reporter_name host_and_port : String) : PrometheusReporter :=
  { reporter_name := reporter_name, host_and_port := host_and_port, tx := none }

/-- `PrometheusReporter::add`: if the reporter has no sender yet, fail with
the not-started error; otherwise `tx.send(PrometheusMetricEntry {…})`,
which enqueues the entry (unbounded channel — the call never blocks and
never fails for capacity) and fails only when the receiver has been
dropped. -/
def PrometheusReporter.add (r : PrometheusReporter) (name : String)
    (metric : Metric) (labels : LabelSet) : Except AddError PrometheusReporter :=
  match r.tx with
  | some ch =>
      if ch.receiverAlive then
        .ok { r with tx := some { ch with
                pending := ch.pending ++ [⟨name, metric, labels⟩] } }
      else .error .ChannelClosed
  | none => .error .NotStarted

/-- `PrometheusReporter::start`: create the channel and store the sender
(`self.tx = Some(tx)`).  The spawned export task owns the receiver, so the
fresh channel has a live receiver and an empty buffer.  `delay_ms` only
paces the spawned loop. -/
def PrometheusReporter.start (r : PrometheusReporter) (delay_ms : Nat) : PrometheusReporter :=
  { r with tx := some { pending := [], receiverAlive := true } }

/-- Modelled from the spec: `get_unique_reporter_name` for the Prometheus
variant.  The `Reporter` trait impl for `PrometheusReporter` lives in code
outside the given sources (only `ConsoleReporter`s impl is given); per the
spec it is pure and returns the fixed name set at construction, which the
struct stores in `reporter_name`. -/
def PrometheusReporter.get_unique_reporter_name (r : PrometheusReporter) : String :=
  r.reporter_name

/-- The operations a caller can perform on a `PrometheusReporter` after
construction.  `add` that returns an error leaves the reporter unchanged
(the source takes `&mut self` but only reads `self.tx` on the error
paths). -/
inductive ReporterOp where
  | add (name : String) (metric : Metric) (labels : LabelSet)
  | start (delay_ms : Nat)
deriving DecidableEq, Repr

/-- Apply one caller operation to the reporter state. -/
def PrometheusReporter.applyOp (r : PrometheusReporter) : ReporterOp → PrometheusReporter
  | .add name metric labels =>
      match r.add name metric labels with
      | .ok r2 => r2
      | .error _ => r
  | .start delay_ms => r.start delay_ms

/-- `ConsoleReporter`. -/
structure ConsoleReporter where
  metrics : List Metric
  reporter_name : String
deriving DecidableEq, Repr

/-- `ConsoleReporter::new`. -/
def ConsoleReporter.new (reporter_name : String) : ConsoleReporter :=
  { metrics := [], reporter_name := reporter_name }

/-- `ConsoleReporter::get_unique_reporter_name` (the `Reporter` trait
impl in `console.rs`). -/
def ConsoleReporter.get_unique_reporter_name (r : ConsoleReporter) : String :=
  r.reporter_name

/-- `ConsoleReporter::add`: push the metric onto the internal list. -/
def ConsoleReporter.add (r : ConsoleReporter) (metric : Metric) : ConsoleReporter :=
  { r with metrics := r.metrics ++ [metric] }

/-- The operations a caller can perform on a `ConsoleReporter` after
construction.  `start` moves the reporter into the printing task; the
reporter value itself is not modified by it (the loop only reads
snapshots). -/
inductive ConsoleOp where
  | add (metric : Metric)
  | start (delay_ms : Nat)
deriving DecidableEq, Repr

/-- Apply one caller operation to the console reporter state. -/
def ConsoleReporter.applyOp (r : ConsoleReporter) : ConsoleOp → ConsoleReporter
  | .add m => r.add m
  | .start _ => r

/-- The wire type each metric variant is tagged with (the second component
of `make_metric`). -/
def wireType : Metric → MetricType
  | .counter _ => .COUNTER
  | .gauge _ => .GAUGE
  | .meter => .SUMMARY
  | .histogram => .HISTOGRAM

/-- A wire record with its timestamp erased, for stating timestamp-independent
facts about members. -/
def stripTime (m : PbMetric) : PbMetric :=
  { m with timestamp_ms := 0 }

/-! ### Lemmas about the grouping association list -/

theorem lookupGroup_insertGrouped (g : EntriesGroup) (e : PrometheusMetricEntry)
    (n : String) :
    lookupGroup (insertGrouped g e) n =
      if n = e.name then some (((lookupGroup g e.name).getD []) ++ [e])
      else lookupGroup g n := by
  induction g with
  | nil =>
      by_cases h : n = e.name
      · subst h; simp [insertGrouped, lookupGroup]
      · have h2 : ¬ e.name = n := fun hh => h hh.symm
        simp [insertGrouped, lookupGroup, h, h2]
  | cons p rest ih =>
      obtain ⟨k, b⟩ := p
      by_cases hk : k = e.name
      · subst hk
        by_cases h : n = e.name
        · subst h; simp [insertGrouped, lookupGroup]
        · have h2 : ¬ e.name = n := fun hh => h hh.symm
          simp [insertGrouped, lookupGroup, h, h2]
      · by_cases h : k = n
        · have hne : ¬ n = e.name := fun hh => hk (h.trans hh)
          simp [insertGrouped, lookupGroup, hk, h, hne]
        · simp only [insertGrouped, if_neg hk, lookupGroup, if_neg h]
          rw [ih]

theorem keys_insertGrouped (g : EntriesGroup) (e : PrometheusMetricEntry) :
    (insertGrouped g e).map Prod.fst =
      if e.name ∈ g.map Prod.fst then g.map Prod.fst
      else g.map Prod.fst ++ [e.name] := by
  induction g with
  | nil => simp [insertGrouped]
  | cons p rest ih =>
      obtain ⟨k, b⟩ := p
      simp only [insertGrouped]
      by_cases hk : k = e.name
      · subst hk
        simp
      · rw [if_neg hk]
        simp only [List.map_cons, List.mem_cons]
        rw [ih]
        have hne : ¬ e.name = k := fun hh => hk hh.symm
        by_cases hmem : e.name ∈ rest.map Prod.fst
        · simp [hmem, hne]
        · simp [hmem, hne]

theorem nodupKeys_insertGrouped (g : EntriesGroup) (e : PrometheusMetricEntry)
    (h : (g.map Prod.fst).Nodup) : ((insertGrouped g e).map Prod.fst).Nodup := by
  rw [keys_insertGrouped]
  by_cases hmem : e.name ∈ g.map Prod.fst
  · simpa [hmem] using h
  · simp only [hmem, if_neg]
    simp [List.nodup_append, h, hmem]

theorem buckets_insertGrouped_ne_nil (g : EntriesGroup) (e : PrometheusMetricEntry)
    (h : ∀ p ∈ g, p.2 ≠ []) : ∀ p ∈ insertGrouped g e, p.2 ≠ [] := by
  induction g with
  | nil =>
      intro p hp
      simp only [insertGrouped, List.mem_singleton] at hp
      subst hp; simp
  | cons q rest ih =>
      obtain ⟨k, b⟩ := q
      intro p hp
      simp only [insertGrouped] at hp
      by_cases hk : k = e.name
      · rw [if_pos hk] at hp
        rcases List.mem_cons.mp hp with h1 | h1
        · subst h1; simp
        · exact h p (List.mem_cons_of_mem _ h1)
      · rw [if_neg hk] at hp
        rcases List.mem_cons.mp hp with h1 | h1
        · subst h1; exact h (k, b) (List.mem_cons_self _ _)
        · exact ih (fun q hq => h q (List.mem_cons_of_mem _ hq)) p h1

theorem lookupGroup_isSome_iff_mem (g : EntriesGroup) (n : String) :
    (lookupGroup g n).isSome ↔ n ∈ g.map Prod.fst := by
  induction g with
  | nil => simp [lookupGroup]
  | cons p rest ih =>
      obtain ⟨k, b⟩ := p
      simp only [lookupGroup, List.map_cons, List.mem_cons]
      by_cases h : k = n
      · simp [h]
      · have h2 : ¬ n = k := fun hh => h hh.symm
        simp [h, h2, ih]

theorem mem_of_lookupGroup_eq_some (g : EntriesGroup) (n : String)
    (b : List PrometheusMetricEntry) (h : lookupGroup g n = some b) : (n, b) ∈ g := by
  induction g with
  | nil => simp [lookupGroup] at h
  | cons p rest ih =>
      obtain ⟨k, b2⟩ := p
      simp only [lookupGroup] at h
      by_cases hk : k = n
      · rw [if_pos hk] at h
        subst hk
        cases h
        exact List.mem_cons_self _ _
      · rw [if_neg hk] at h
        exact List.mem_cons_of_mem _ (ih h)

theorem lookupGroup_eq_some_of_mem (g : EntriesGroup) (n : String)
    (b : List PrometheusMetricEntry) (hnd : (g.map Prod.fst).Nodup)
    (h : (n, b) ∈ g) : lookupGroup g n = some b := by
  induction g with
  | nil => simp at h
  | cons p rest ih =>
      obtain ⟨k, b2⟩ := p
      simp only [List.map_cons, List.nodup_cons] at hnd
      rcases List.mem_cons.mp h with h1 | h1
      · cases h1
        simp [lookupGroup]
      · have hkn : k ≠ n := by
          intro hk
          subst hk
          exact hnd.1 (List.mem_map.mpr ⟨(k, b), h1, rfl⟩)
        simp only [lookupGroup, if_neg hkn]
        exact ih hnd.2 h1

theorem lookupGroup_foldl_getD (es : List PrometheusMetricEntry) :
    ∀ (g : EntriesGroup) (n : String),
      (lookupGroup (es.foldl insertGrouped g) n).getD [] =
        ((lookupGroup g n).getD []) ++ es.filter (fun e => e.name = n) := by
  induction es with
  | nil => intro g n; simp
  | cons e rest ih =>
      intro g n
      simp only [List.foldl_cons, List.filter_cons]
      rw [ih]
      rw [lookupGroup_insertGrouped]
      by_cases h : n = e.name
      · subst h
        simp [List.append_assoc]
      · have h2 : ¬ (e.name = n) := fun hh => h hh.symm
        simp [h, h2]

theorem lookupGroup_foldl_isSome (es : List PrometheusMetricEntry) :
    ∀ (g : EntriesGroup) (n : String),
      (lookupGroup (es.foldl insertGrouped g) n).isSome ↔
        ((lookupGroup g n).isSome ∨ ∃ e ∈ es, e.name = n) := by
  induction es with
  | nil => intro g n; simp
  | cons e rest ih =>
      intro g n
      simp only [List.foldl_cons]
      rw [ih]
      rw [lookupGroup_insertGrouped]
      by_cases h : n = e.name
      · subst h
        simp
      · have h2 : ¬ (e.name = n) := fun hh => h hh.symm
        simp only [if_neg h, List.mem_cons]
        constructor
        · rintro (h1 | ⟨e2, he2, hname⟩)
          · exact Or.inl h1
          · exact Or.inr ⟨e2, Or.inr he2, hname⟩
        · rintro (h1 | ⟨e2, he2, hname⟩)
          · exact Or.inl h1
          · rcases he2 with h3 | h3
            · subst h3; exact absurd hname h2
            · exact Or.inr ⟨e2, h3, hname⟩

theorem nodupKeys_foldl (es : List PrometheusMetricEntry) :
    ∀ (g : EntriesGroup), (g.map Prod.fst).Nodup →
      ((es.foldl insertGrouped g).map Prod.fst).Nodup := by
  induction es with
  | nil => intro g h; simpa using h
  | cons e rest ih =>
      intro g h
      simpa using ih _ (nodupKeys_insertGrouped g e h)

theorem buckets_foldl_ne_nil (es : List PrometheusMetricEntry) :
    ∀ (g : EntriesGroup), (∀ p ∈ g, p.2 ≠ []) →
      ∀ p ∈ es.foldl insertGrouped g, p.2 ≠ [] := by
  induction es with
  | nil => intro g h; simpa using h
  | cons e rest ih =>
      intro g h
      simpa using ih _ (buckets_insertGrouped_ne_nil g e h)

theorem nodupKeys_groupByName (es : List PrometheusMetricEntry) :
    ((groupByName es).map Prod.fst).Nodup :=
  nodupKeys_foldl es [] (by simp)

theorem buckets_groupByName_ne_nil (es : List PrometheusMetricEntry) :
    ∀ p ∈ groupByName es, p.2 ≠ [] :=
  buckets_foldl_ne_nil es [] (by simp)

theorem lookupGroup_groupByName_getD (es : List PrometheusMetricEntry) (n : String) :
    (lookupGroup (groupByName es) n).getD [] = es.filter (fun e => e.name = n) := by
  have := lookupGroup_foldl_getD es [] n
  simpa [groupByName, lookupGroup] using this

theorem lookupGroup_groupByName_isSome (es : List PrometheusMetricEntry) (n : String) :
    (lookupGroup (groupByName es) n).isSome ↔ ∃ e ∈ es, e.name = n := by
  have := lookupGroup_foldl_isSome es [] n
  simpa [groupByName, lookupGroup] using this

theorem lookupGroup_groupByName_eq_filter (es : List PrometheusMetricEntry)
    (n : String) (b : List PrometheusMetricEntry)
    (h : lookupGroup (groupByName es) n = some b) :
    b = es.filter (fun e => e.name = n) := by
  have := lookupGroup_groupByName_getD es n
  rw [h] at this
  simpa using this

/-! ### Lemmas about family construction -/

theorem formatMetricName_injective (a b : String)
    (h : formatMetricName a = formatMetricName b) : a = b := by
  unfold formatMetricName at h
  have h2 := congrArg String.data h
  simp [String.data_append] at h2
  exact String.ext h2

theorem make_metric_fst_label (ts : Int) (m : Metric) (l : LabelSet) :
    ((make_metric ts m l).1).label = to_repeated_fields_labels l := by
  cases m <;> rfl

theorem make_metric_fst_timestamp (ts : Int) (m : Metric) (l : LabelSet) :
    ((make_metric ts m l).1).timestamp_ms = ts := by
  cases m <;> rfl

theorem make_metric_snd (ts : Int) (m : Metric) (l : LabelSet) :
    (make_metric ts m l).2 = wireType m := by
  cases m <;> rfl

theorem stripTime_make_metric (ts : Int) (m : Metric) (l : LabelSet) :
    stripTime (make_metric ts m l).1 = stripTime (make_metric 0 m l).1 := by
  cases m <;> rfl

theorem convertBucket_length (clock : Nat → Int) (i : Nat)
    (b : List PrometheusMetricEntry) : (convertBucket clock i b).length = b.length := by
  induction b generalizing i with
  | nil => rfl
  | cons e rest ih => simp [convertBucket, ih]

theorem convertBucket_get? (clock : Nat → Int) (b : List PrometheusMetricEntry) :
    ∀ (i j : Nat),
      (convertBucket clock i b).get? j =
        (b.get? j).map (fun e => (make_metric (clock (i + j)) e.metric e.labels).1) := by
  induction b with
  | nil => intro i j; simp [convertBucket]
  | cons e rest ih =>
      intro i j
      cases j with
      | zero => simp [convertBucket]
      | succ j2 =>
          simp only [convertBucket, List.get?_cons_succ]
          rw [ih (i + 1) j2]
          have : i + 1 + j2 = i + (j2 + 1) := by omega
          rw [this]

theorem convertBucket_map_stripTime (clock : Nat → Int)
    (b : List PrometheusMetricEntry) : ∀ (i : Nat),
      (convertBucket clock i b).map stripTime =
        b.map (fun e => stripTime (make_metric 0 e.metric e.labels).1) := by
  induction b with
  | nil => intro i; rfl
  | cons e rest ih =>
      intro i
      simp only [convertBucket, List.map_cons]
      rw [stripTime_make_metric, ih (i + 1)]

theorem famOfBucket_name (clock : Nat → Int) (i : Nat) (n : String)
    (b : List PrometheusMetricEntry) :
    (famOfBucket clock i n b).name = formatMetricName n := rfl

theorem famOfBucket_metric (clock : Nat → Int) (i : Nat) (n : String)
    (b : List PrometheusMetricEntry) :
    (famOfBucket clock i n b).metric = convertBucket clock (i + 1) b := rfl

theorem famOfBucket_field_type (clock : Nat → Int) (i : Nat) (n : String)
    (e1 : PrometheusMetricEntry) (rest : List PrometheusMetricEntry) :
    (famOfBucket clock i n (e1 :: rest)).field_type = wireType e1.metric := by
  simp [famOfBucket, make_metric_snd]

theorem buildFamilies_filter_of_not_mem (clock : Nat → Int) (n : String)
    (g : EntriesGroup) : ∀ (i : Nat), n ∉ g.map Prod.fst →
      (buildFamilies clock i g).filter
        (fun f => f.name = formatMetricName n) = [] := by
  induction g with
  | nil => intro i _; rfl
  | cons p rest ih =>
      obtain ⟨k, b⟩ := p
      intro i hmem
      simp only [List.map_cons, List.mem_cons] at hmem
      push_neg at hmem
      obtain ⟨hkn, hrest⟩ := hmem
      cases b with
      | nil => exact ih i hrest
      | cons e1 b2 =>
          simp only [buildFamilies, List.filter_cons]
          have hne : ¬ ((famOfBucket clock i k (e1 :: b2)).name = formatMetricName n) := by
            rw [famOfBucket_name]
            intro hh
            exact hkn.symm (formatMetricName_injective _ _ hh)
          simp only [decide_eq_true_eq, hne, if_false]
          exact ih _ hrest

theorem buildFamilies_filter_of_lookup (clock : Nat → Int) (n : String)
    (b : List PrometheusMetricEntry) (g : EntriesGroup) : ∀ (i : Nat),
      (g.map Prod.fst).Nodup → (∀ p ∈ g, p.2 ≠ []) →
      lookupGroup g n = some b →
      ∃ i2, i ≤ i2 ∧
        (buildFamilies clock i g).filter
          (fun f => f.name = formatMetricName n) = [famOfBucket clock i2 n b] := by
  induction g with
  | nil => intro i _ _ hlk; simp [lookupGroup] at hlk
  | cons p rest ih =>
      obtain ⟨k, bk⟩ := p
      intro i hnd hne hlk
      simp only [List.map_cons, List.nodup_cons] at hnd
      have hbk : bk ≠ [] := hne (k, bk) (List.mem_cons_self _ _)
      simp only [lookupGroup] at hlk
      by_cases hk : k = n
      · rw [if_pos hk] at hlk
        cases hlk
        subst hk
        cases b with
        | nil => exact absurd rfl hbk
        | cons e1 b2 =>
            refine ⟨i, le_refl i, ?_⟩
            have hname : (famOfBucket clock i k (e1 :: b2)).name = formatMetricName k :=
              famOfBucket_name _ _ _ _
            have hrest := buildFamilies_filter_of_not_mem clock k rest
              (i + 1 + (e1 :: b2).length) hnd.1
            simp only [List.length_cons] at hrest
            simp [buildFamilies, List.filter_cons, hname, hrest]
      · rw [if_neg hk] at hlk
        cases bk with
        | nil => exact absurd rfl hbk
        | cons e1 b2 =>
            obtain ⟨i2, hle, heq⟩ :=
              ih (i + 1 + (e1 :: b2).length) hnd.2
                (fun q hq => hne q (List.mem_cons_of_mem _ hq)) hlk
            refine ⟨i2, by omega, ?_⟩
            simp only [buildFamilies, List.filter_cons]
            have hne2 : ¬ ((famOfBucket clock i k (e1 :: b2)).name = formatMetricName n) := by
              rw [famOfBucket_name]
              intro hh
              exact hk (formatMetricName_injective _ _ hh)
            simp only [decide_eq_true_eq, hne2, if_false]
            exact heq

theorem mem_buildFamilies (clock : Nat → Int) (f : MetricFamily)
    (g : EntriesGroup) : ∀ (i : Nat), f ∈ buildFamilies clock i g →
      ∃ n b i2, (n, b) ∈ g ∧ b ≠ [] ∧ f = famOfBucket clock i2 n b := by
  induction g with
  | nil => intro i hmem; simp [buildFamilies] at hmem
  | cons p rest ih =>
      obtain ⟨k, bk⟩ := p
      intro i hmem
      cases bk with
      | nil =>
          obtain ⟨n, b, i2, hmem2, hb, hf⟩ := ih i hmem
          exact ⟨n, b, i2, List.mem_cons_of_mem _ hmem2, hb, hf⟩
      | cons e1 b2 =>
          rcases List.mem_cons.mp hmem with h1 | h1
          · exact ⟨k, e1 :: b2, i, List.mem_cons_self _ _, by simp, h1⟩
          · obtain ⟨n, b, i2, hmem2, hb, hf⟩ := ih _ h1
            exact ⟨n, b, i2, List.mem_cons_of_mem _ hmem2, hb, hf⟩

theorem formatMetricName_eq (n : String) :
    formatMetricName n = "application_name_" ++ n ++ "_bytes" := by
  apply String.ext
  simp [formatMetricName, String.data_append]

theorem head?_filter_eq_find? (p : α → Bool) (l : List α) :
    (l.filter p).head? = l.find? p := by
  induction l with
  | nil => rfl
  | cons a rest ih =>
      by_cases h : p a
      · simp [List.filter_cons, List.find?_cons, h]
      · simp only [Bool.not_eq_true] at h
        simp [List.filter_cons, List.find?_cons, h, ih]

theorem convertBucket_map_label (clock : Nat → Int) (b : List PrometheusMetricEntry) :
    ∀ (i : Nat), (convertBucket clock i b).map PbMetric.label =
      b.map (fun e => to_repeated_fields_labels e.labels) := by
  induction b with
  | nil => intro i; rfl
  | cons e rest ih =>
      intro i
      simp only [convertBucket, List.map_cons]
      rw [make_metric_fst_label, ih (i + 1)]

theorem convertBucket_map_timestamp (clock : Nat → Int) (b : List PrometheusMetricEntry) :
    ∀ (i : Nat), (convertBucket clock i b).map PbMetric.timestamp_ms =
      (List.range b.length).map (fun j => clock (i + j)) := by
  induction b with
  | nil => intro i; rfl
  | cons e rest ih =>
      intro i
      simp only [convertBucket, List.map_cons, List.length_cons,
        List.range_succ_eq_map, List.map_map]
      rw [make_metric_fst_timestamp, ih (i + 1)]
      have harith : ∀ j : Nat, i + 1 + j = i + (j + 1) := by omega
      simp [Function.comp, harith]

theorem groupAndBuild_filter_of_count (clock : Nat → Int)
    (entries : List PrometheusMetricEntry) (N : String)
    (hex : ∃ e ∈ entries, e.name = N) :
    ∃ i2, (groupAndBuild clock entries).filter
        (fun f => f.name = formatMetricName N) =
      [famOfBucket clock i2 N (entries.filter (fun e => e.name = N))] := by
  have hsome : (lookupGroup (groupByName entries) N).isSome := by
    rw [lookupGroup_groupByName_isSome]
    exact hex
  obtain ⟨b, hb⟩ := Option.isSome_iff_exists.mp hsome
  have hbf : b = entries.filter (fun e => e.name = N) :=
    lookupGroup_groupByName_eq_filter entries N b hb
  obtain ⟨i2, _, hfilter⟩ := buildFamilies_filter_of_lookup clock N b
    (groupByName entries) 0 (nodupKeys_groupByName entries)
    (buckets_groupByName_ne_nil entries) hb
  subst hbf
  exact ⟨i2, hfilter⟩

theorem applyOp_preserves_isSome (r : PrometheusReporter) (op : ReporterOp)
    (h : r.tx.isSome = true) : ((r.applyOp op).tx).isSome = true := by
  cases op with
  | start d => simp [PrometheusReporter.applyOp, PrometheusReporter.start]
  | add name metric labels =>
      simp only [PrometheusReporter.applyOp, PrometheusReporter.add]
      cases htx : r.tx with
      | none => rw [htx] at h; simp at h
      | some ch =>
          by_cases halive : ch.receiverAlive
          · simp [halive]
          · simp only [Bool.not_eq_true] at halive
            simp [halive, htx]

theorem foldl_applyOp_preserves_isSome (ops : List ReporterOp) :
    ∀ (r : PrometheusReporter), r.tx.isSome = true →
      ((ops.foldl PrometheusReporter.applyOp r).tx).isSome = true := by
  induction ops with
  | nil => intro r h; simpa using h
  | cons op rest ih =>
      intro r h
      simpa using ih _ (applyOp_preserves_isSome r op h)

theorem add_ne_notStarted (r : PrometheusReporter) (h : r.tx.isSome = true)
    (name : String) (metric : Metric) (labels : LabelSet) :
    r.add name metric labels ≠ .error .NotStarted := by
  simp only [PrometheusReporter.add]
  cases htx : r.tx with
  | none => rw [htx] at h; simp at h
  | some ch =>
      by_cases halive : ch.receiverAlive
      · simp [halive]
      · simp only [Bool.not_eq_true] at halive
        simp [halive]

theorem applyOp_preserves_name (r : PrometheusReporter) (op : ReporterOp) :
    (r.applyOp op).reporter_name = r.reporter_name := by
  cases op with
  | start d => rfl
  | add name metric labels =>
      simp only [PrometheusReporter.applyOp, PrometheusReporter.add]
      cases htx : r.tx with
      | none => rfl
      | some ch =>
          by_cases halive : ch.receiverAlive
          · simp [halive]
          · simp only [Bool.not_eq_true] at halive
            simp [halive]

theorem foldl_applyOp_preserves_name (ops : List ReporterOp) :
    ∀ (r : PrometheusReporter),
      (ops.foldl PrometheusReporter.applyOp r).reporter_name = r.reporter_name := by
  induction ops with
  | nil => intro r; rfl
  | cons op rest ih =>
      intro r
      simpa [applyOp_preserves_name] using ih (r.applyOp op)

theorem consoleApplyOp_preserves_name (r : ConsoleReporter) (op : ConsoleOp) :
    (r.applyOp op).reporter_name = r.reporter_name := by
  cases op <;> rfl

theorem foldl_consoleApplyOp_preserves_name (ops : List ConsoleOp) :
    ∀ (r : ConsoleReporter),
      (ops.foldl ConsoleReporter.applyOp r).reporter_name = r.reporter_name := by
  induction ops with
  | nil => intro r; rfl
  | cons op rest ih =>
      intro r
      simpa [consoleApplyOp_preserves_name] using ih (r.applyOp op)

/-! ### The claims -/

/-- C1: the claim says `collect_to_send` returns within the cycle as soon as
no entry is immediately available, for every channel state.  The source code
violates this: its drain is `for entry in metric_entries` over the blocking
receiver iterator, which returns only once the channel is closed; on every
open channel state (in particular the very first cycle, with nothing
enqueued) the call blocks instead of returning the immediately available
entries, while the spec-prescribed drain (`drainSpecified`) returns them.
The spec itself flags the closure-waiting drain as an unintended defect, so
this is a bug in the code, not in the claim. -/
theorem collect_to_send_blocks_while_channel_open :
    collect_to_send (fun _ => 0) [] false = none ∧
    (∀ (clock : Nat → Int) (pending : List PrometheusMetricEntry),
      collect_to_send clock pending false = none) ∧
    (∀ (pending : List PrometheusMetricEntry) (closed : Bool),
      drainSpecified pending closed = pending) :=
  ⟨rfl, fun _ _ => rfl, fun _ _ => rfl⟩

/-- C2: for every metric name `N` and every drained entry list containing
exactly `k ≥ 1` entries named `N`, the grouping/building step of
`collect_to_send` emits exactly one family for `N`, named
`"application_name_" ++ N ++ "_bytes"`, whose member list has length `k`. -/
theorem one_family_per_name (clock : Nat → Int)
    (entries : List PrometheusMetricEntry) (N : String) (k : Nat)
    (hcount : (entries.filter (fun e => e.name = N)).length = k)
    (hpos : 0 < k) :
    ∃ f, (groupAndBuild clock entries).filter
        (fun f => f.name = "application_name_" ++ N ++ "_bytes") = [f] ∧
      f.metric.length = k := by
  have hex : ∃ e ∈ entries, e.name = N := by
    have hne : entries.filter (fun e => e.name = N) ≠ [] := by
      intro hnil
      rw [hnil] at hcount
      simp at hcount
      omega
    obtain ⟨e, he⟩ := List.exists_mem_of_ne_nil _ hne
    have := List.mem_filter.mp he
    exact ⟨e, this.1, by simpa using this.2⟩
  obtain ⟨i2, hfilter⟩ := groupAndBuild_filter_of_count clock entries N hex
  simp only [formatMetricName_eq] at hfilter
  refine ⟨_, hfilter, ?_⟩
  rw [famOfBucket_metric, convertBucket_length]
  exact hcount

/-- Witness for `one_family_per_name`: two entries named "req" (and one
under another name) in a cycle yield exactly one "req" family with two
members. -/
theorem one_family_per_name_witness :
    (([⟨"req", .counter 5, []⟩, ⟨"other", .meter, []⟩, ⟨"req", .gauge 2, []⟩] :
        List PrometheusMetricEntry).filter
      (fun e => e.name = "req")).length = 2 ∧
    ∃ f, (groupAndBuild (fun _ => 0)
        [⟨"req", .counter 5, []⟩, ⟨"other", .meter, []⟩, ⟨"req", .gauge 2, []⟩]).filter
        (fun f => f.name = "application_name_" ++ "req" ++ "_bytes") = [f] ∧
      f.metric.length = 2 :=
  ⟨by decide,
   one_family_per_name (fun _ => 0)
     [⟨"req", .counter 5, []⟩, ⟨"other", .meter, []⟩, ⟨"req", .gauge 2, []⟩]
     "req" 2 (by decide) (by decide)⟩

/-- C3: the `declared_type` (`field_type`) of the family emitted for a name
`N` equals the wire type of the variant of the first entry submitted under
`N` in that drain cycle — whatever the variants of the later entries in the
bucket are (the bucket's tail is unconstrained here). -/
theorem declared_type_from_first_entry (clock : Nat → Int)
    (entries : List PrometheusMetricEntry) (N : String)
    (e0 : PrometheusMetricEntry)
    (hfirst : entries.find? (fun e => e.name = N) = some e0) :
    ∃ f, (groupAndBuild clock entries).filter
        (fun f => f.name = "application_name_" ++ N ++ "_bytes") = [f] ∧
      f.field_type = wireType e0.metric := by
  have hex : ∃ e ∈ entries, e.name = N := by
    refine ⟨e0, List.mem_of_find?_eq_some hfirst, ?_⟩
    have := List.find?_some hfirst
    simpa using this
  obtain ⟨i2, hfilter⟩ := groupAndBuild_filter_of_count clock entries N hex
  simp only [formatMetricName_eq] at hfilter
  refine ⟨_, hfilter, ?_⟩
  have hhead : (entries.filter (fun e => e.name = N)).head? = some e0 := by
    rw [head?_filter_eq_find?]
    exact hfirst
  cases hb : entries.filter (fun e => e.name = N) with
  | nil => rw [hb] at hhead; simp at hhead
  | cons e1 rest =>
      rw [hb] at hhead
      simp only [List.head?_cons, Option.some.injEq] at hhead
      subst hhead
      rw [famOfBucket_field_type]

/-- Witness for `declared_type_from_first_entry`: with a Counter submitted
first under "req" and a Gauge second, the "req" family is typed COUNTER. -/
theorem declared_type_from_first_entry_witness :
    ([⟨"req", .counter 5, []⟩, ⟨"req", .gauge 2, []⟩] :
        List PrometheusMetricEntry).find? (fun e => e.name = "req") =
      some ⟨"req", .counter 5, []⟩ ∧
    ∃ f, (groupAndBuild (fun _ => 0)
        [⟨"req", .counter 5, []⟩, ⟨"req", .gauge 2, []⟩]).filter
        (fun f => f.name = "application_name_" ++ "req" ++ "_bytes") = [f] ∧
      f.field_type = wireType (⟨"req", .counter 5, []⟩ : PrometheusMetricEntry).metric :=
  ⟨by decide,
   declared_type_from_first_entry (fun _ => 0)
     [⟨"req", .counter 5, []⟩, ⟨"req", .gauge 2, []⟩] "req"
     ⟨"req", .counter 5, []⟩ (by decide)⟩

/-- C5: within the family emitted for a name `N`, the member records appear
in per-name submission order: projecting away the (per-member) timestamp,
the member list is exactly the in-order image of the entries named `N` in
the drained list. -/
theorem members_in_submission_order (clock : Nat → Int)
    (entries : List PrometheusMetricEntry) (N : String)
    (hex : ∃ e ∈ entries, e.name = N) :
    ∃ f, (groupAndBuild clock entries).filter
        (fun f => f.name = "application_name_" ++ N ++ "_bytes") = [f] ∧
      f.metric.map stripTime =
        (entries.filter (fun e => e.name = N)).map
          (fun e => stripTime (make_metric 0 e.metric e.labels).1) := by
  obtain ⟨i2, hfilter⟩ := groupAndBuild_filter_of_count clock entries N hex
  simp only [formatMetricName_eq] at hfilter
  refine ⟨_, hfilter, ?_⟩
  rw [famOfBucket_metric, convertBucket_map_stripTime]

/-- Witness for `members_in_submission_order`: the two "req" members appear
in submission order (counter first, gauge second). -/
theorem members_in_submission_order_witness :
    (∃ e ∈ ([⟨"req", .counter 5, []⟩, ⟨"req", .gauge 2, []⟩] :
        List PrometheusMetricEntry), e.name = "req") ∧
    ∃ f, (groupAndBuild (fun _ => 0)
        [⟨"req", .counter 5, []⟩, ⟨"req", .gauge 2, []⟩]).filter
        (fun f => f.name = "application_name_" ++ "req" ++ "_bytes") = [f] ∧
      f.metric.map stripTime =
        (([⟨"req", .counter 5, []⟩, ⟨"req", .gauge 2, []⟩] :
            List PrometheusMetricEntry).filter (fun e => e.name = "req")).map
          (fun e => stripTime (make_metric 0 e.metric e.labels).1) :=
  ⟨by decide,
   members_in_submission_order (fun _ => 0)
     [⟨"req", .counter 5, []⟩, ⟨"req", .gauge 2, []⟩] "req" (by decide)⟩

/-- C6: `make_metric` forwards the numeric snapshot value only for the
Counter and Gauge variants (in the `counter` resp. `gauge` payload field,
with the entry's cloned labels and the given clock reading), while Meter
yields an empty SUMMARY payload and Histogram an empty HISTOGRAM payload,
with no value, distribution or bucket detail.  In particular a Counter with
snapshot value 5 and empty labels yields a member whose counter field is 5
and whose label sequence is empty, and symmetrically for Gauge. -/
theorem make_metric_payloads :
    (∀ (ts : Int) (l : LabelSet) (v : Int),
      make_metric ts (.counter v) l =
        ({ label := to_repeated_fields_labels l, timestamp_ms := ts,
           counter := some v }, .COUNTER)) ∧
    (∀ (ts : Int) (l : LabelSet) (v : Int),
      make_metric ts (.gauge v) l =
        ({ label := to_repeated_fields_labels l, timestamp_ms := ts,
           gauge := some v }, .GAUGE)) ∧
    (∀ (ts : Int) (l : LabelSet),
      make_metric ts .meter l =
        ({ label := to_repeated_fields_labels l, timestamp_ms := ts,
           summary := some () }, .SUMMARY)) ∧
    (∀ (ts : Int) (l : LabelSet),
      make_metric ts .histogram l =
        ({ label := to_repeated_fields_labels l, timestamp_ms := ts,
           histogram := some () }, .HISTOGRAM)) ∧
    (∀ ts : Int, make_metric ts (.counter 5) [] =
      ({ label := [], timestamp_ms := ts, counter := some 5 }, .COUNTER)) ∧
    (∀ ts : Int, make_metric ts (.gauge 5) [] =
      ({ label := [], timestamp_ms := ts, gauge := some 5 }, .GAUGE)) :=
  ⟨fun _ _ _ => rfl, fun _ _ _ => rfl, fun _ _ => rfl, fun _ _ => rfl,
   fun _ => rfl, fun _ => rfl⟩

/-- C7: every member record emitted in a drain cycle carries a clone of its
entry's label set, and a timestamp that is its own fresh wall-clock reading:
member `j` of a family built from a bucket whose type probe happened at
call index `i` carries the reading taken at call index `i + 1 + j`, a
distinct reading per member.  (`clock` is the ambient wall clock indexed by
`make_metric` call count; the source stores whole seconds since epoch in
the wire field `timestamp_ms`.) -/
theorem member_labels_and_fresh_timestamps (clock : Nat → Int)
    (entries : List PrometheusMetricEntry) (f : MetricFamily)
    (hf : f ∈ groupAndBuild clock entries) :
    ∃ n bucket i, (n, bucket) ∈ groupByName entries ∧
      f.metric.map PbMetric.label =
        bucket.map (fun e => to_repeated_fields_labels e.labels) ∧
      f.metric.map PbMetric.timestamp_ms =
        (List.range bucket.length).map (fun j => clock (i + 1 + j)) := by
  obtain ⟨n, b, i2, hmem, hb, hfeq⟩ :=
    mem_buildFamilies clock f (groupByName entries) 0 hf
  refine ⟨n, b, i2, hmem, ?_, ?_⟩
  · rw [hfeq, famOfBucket_metric, convertBucket_map_label]
  · rw [hfeq, famOfBucket_metric, convertBucket_map_timestamp]

/-- Witness for `member_labels_and_fresh_timestamps`, at the single family
built from one gauge entry carrying one label pair. -/
theorem member_labels_and_fresh_timestamps_witness :
    (⟨"application_name_w_bytes", .GAUGE,
        [⟨[⟨"a", "b"⟩], 0, none, some 3, none, none⟩]⟩ : MetricFamily) ∈
      groupAndBuild (fun _ => 0) [⟨"w", .gauge 3, [("a", "b")]⟩] ∧
    ∃ (n : String) (bucket : List PrometheusMetricEntry) (i : Nat),
      (n, bucket) ∈ groupByName [(⟨"w", .gauge 3, [("a", "b")]⟩ : PrometheusMetricEntry)] ∧
      (⟨"application_name_w_bytes", .GAUGE,
          [⟨[⟨"a", "b"⟩], 0, none, some 3, none, none⟩]⟩ : MetricFamily).metric.map
          PbMetric.label =
        bucket.map (fun e => to_repeated_fields_labels e.labels) ∧
      (⟨"application_name_w_bytes", .GAUGE,
          [⟨[⟨"a", "b"⟩], 0, none, some 3, none, none⟩]⟩ : MetricFamily).metric.map
          PbMetric.timestamp_ms =
        (List.range bucket.length).map (fun _ => (0 : Int)) :=
  ⟨by decide,
   member_labels_and_fresh_timestamps (fun _ => 0)
     [⟨"w", .gauge 3, [("a", "b")]⟩]
     ⟨"application_name_w_bytes", .GAUGE,
       [⟨[⟨"a", "b"⟩], 0, none, some 3, none, none⟩]⟩ (by decide)⟩

/-- C4: `PrometheusReporter::add` fails with the not-started error exactly
when the reporter has no channel yet (for every metric kind and label
content), fails with the channel-closed error exactly when the receiver has
been destroyed, and in every other case enqueues the entry at the end of
the (unbounded) channel buffer and succeeds — never blocking and never
failing for capacity, whatever is already buffered. -/
theorem add_error_semantics (r : PrometheusReporter) (name : String)
    (metric : Metric) (labels : LabelSet) :
    (r.tx = none → r.add name metric labels = .error .NotStarted) ∧
    (∀ ch, r.tx = some ch → ch.receiverAlive = false →
      r.add name metric labels = .error .ChannelClosed) ∧
    (∀ ch, r.tx = some ch → ch.receiverAlive = true →
      r.add name metric labels =
        .ok { r with tx := some { pending := ch.pending ++ [⟨name, metric, labels⟩],
                                  receiverAlive := true } }) := by
  refine ⟨?_, ?_, ?_⟩
  · intro htx
    simp [PrometheusReporter.add, htx]
  · intro ch htx halive
    simp [PrometheusReporter.add, htx, halive]
  · intro ch htx halive
    simp [PrometheusReporter.add, htx, halive]

/-- Witness for `add_error_semantics`: an unstarted reporter rejects an add
with the not-started error, and a started reporter enqueues the entry. -/
theorem add_error_semantics_witness :
    (PrometheusReporter.new "n" "h").add "m" .meter [] = .error .NotStarted ∧
    ((PrometheusReporter.new "n" "h").start 1000).add "m" (.counter 5) [] =
      .ok { reporter_name := "n", host_and_port := "h",
            tx := some { pending := [⟨"m", .counter 5, []⟩],
                         receiverAlive := true } } := by
  constructor
  · exact (add_error_semantics (PrometheusReporter.new "n" "h") "m" .meter []).1 rfl
  · have h := (add_error_semantics ((PrometheusReporter.new "n" "h").start 1000)
      "m" (.counter 5) []).2.2 { pending := [], receiverAlive := true } rfl rfl
    simpa using h

/-- C8: once `start` has set the channel sender, no sequence of `add` or
`start` operations ever returns the reporter to the not-started state, and
every `add` performed after a successful `start` finds the channel present
(it can never fail with the not-started error). -/
theorem started_is_irreversible (r : PrometheusReporter)
    (h : r.tx.isSome = true) (ops : List ReporterOp) :
    ((ops.foldl PrometheusReporter.applyOp r).tx).isSome = true ∧
    ∀ (name : String) (metric : Metric) (labels : LabelSet),
      (ops.foldl PrometheusReporter.applyOp r).add name metric labels ≠
        .error .NotStarted := by
  have hsome := foldl_applyOp_preserves_isSome ops r h
  exact ⟨hsome, fun name metric labels =>
    add_ne_notStarted _ hsome name metric labels⟩

/-- Witness for `started_is_irreversible`: after `start` and two further
operations the channel is still present and an add cannot hit the
not-started error. -/
theorem started_is_irreversible_witness :
    ((([ReporterOp.add "a" .meter [], ReporterOp.start 7].foldl
        PrometheusReporter.applyOp
        ((PrometheusReporter.new "n" "h").start 1)).tx).isSome = true) ∧
    ∀ (name : String) (metric : Metric) (labels : LabelSet),
      ([ReporterOp.add "a" .meter [], ReporterOp.start 7].foldl
        PrometheusReporter.applyOp
        ((PrometheusReporter.new "n" "h").start 1)).add name metric labels ≠
        .error .NotStarted :=
  started_is_irreversible ((PrometheusReporter.new "n" "h").start 1) rfl
    [ReporterOp.add "a" .meter [], ReporterOp.start 7]

/-- C9: for either reporter variant, `get_unique_reporter_name` is pure and
returns exactly the fixed name passed to `new`, unchanged by any subsequent
sequence of `add` or `start` calls. -/
theorem reporter_name_fixed_at_construction (n hp : String)
    (cops : List ConsoleOp) (pops : List ReporterOp) :
    (cops.foldl ConsoleReporter.applyOp
        (ConsoleReporter.new n)).get_unique_reporter_name = n ∧
    (pops.foldl PrometheusReporter.applyOp
        (PrometheusReporter.new n hp)).get_unique_reporter_name = n := by
  constructor
  · rw [ConsoleReporter.get_unique_reporter_name,
      foldl_consoleApplyOp_preserves_name]
    rfl
  · rw [PrometheusReporter.get_unique_reporter_name,
      foldl_applyOp_preserves_name]
    rfl

/-- C10: a drain cycle that yields no submission entries builds the empty
family list, and the export-loop body still performs its hand-off to the
sink with that empty list — the sink call is unconditional every cycle. -/
theorem empty_cycle_still_hands_off (clock : Nat → Int)
    (trace : List (List MetricFamily)) :
    groupAndBuild clock [] = [] ∧
    exportCycle clock [] trace = trace ++ [[]] :=
  ⟨rfl, rfl⟩

end RustMetrics
